import Mathlib

/-!
Shallow embedding of the document ingestion and knowledge-extraction pipeline
of `src/documentProcessor.ts` (class `DocumentProcessor`), together with the
cache serialization format written by `saveKnowledge` and read back by the
cache-loading collaborators (`initializeKnowledgeBase` in `src/web-server.ts`).

External decoders (mammoth, xml2js, pdfjs) and the file system are modelled as
inputs: each source file carries the outcome its decoder would produce.
All repository-owned logic (extension dispatch, error placeholders, regex
heuristics, classification, aggregation, JSON cache shape) is translated
directly from the TypeScript source.
-/

/-! ## JavaScript string primitives used by the source -/

/-- Character comparison, case-insensitively under the `i` flag. -/
def ciCharEq (ci : Bool) (a b : Char) : Bool :=
  if ci then a.toLower = b.toLower else a = b

/-- Does the literal `h` match at the front of `cs` (case folding per `ci`)? -/
def headMatches (ci : Bool) : List Char → List Char → Bool
  | [], _ => true
  | _ :: _, [] => false
  | h :: hs, c :: cs => ciCharEq ci h c && headMatches ci hs cs

/-- Does `sub` occur contiguously inside `cs`? -/
def listContains (sub : List Char) : List Char → Bool
  | [] => sub.isEmpty
  | c :: cs => headMatches false sub (c :: cs) || listContains sub cs

/-- `a.includes(b)` on JS strings: substring containment. -/
def jsIncludes (s sub : String) : Bool :=
  listContains sub.toList s.toList

/-- `String.prototype.toLowerCase`, character-wise (the ASCII folding the
source's filename and keyword data exercises). -/
def jsToLower (s : String) : String :=
  String.mk (s.toList.map Char.toLower)

/-- `split` on a single-character separator string, over the characters. -/
def splitOnCharGo (sep : Char) : List Char → List (List Char)
  | [] => [[]]
  | c :: cs =>
    let r := splitOnCharGo sep cs
    if c = sep then [] :: r
    else (c :: r.headD []) :: r.tail

/-- `s.split(sep)` for the one-character separators the source uses. -/
def jsSplit (s : String) (sep : Char) : List String :=
  (splitOnCharGo sep s.toList).map String.mk

/-- The JS RegExp `\s` character class (whitespace, incl. line terminators). -/
def jsWhitespace (c : Char) : Bool :=
  let n := c.toNat
  (9 ≤ n && n ≤ 13) || n = 32 || n = 160 || n = 0x1680 ||
    (0x2000 ≤ n && n ≤ 0x200a) || n = 0x2028 || n = 0x2029 ||
    n = 0x202f || n = 0x205f || n = 0x3000 || n = 0xfeff

/-- JS line terminators (`\n`, `\r`, U+2028, U+2029): the characters excluded
by `.` and recognized by multiline `^`/`$`. -/
def isLineTerm (c : Char) : Bool :=
  let n := c.toNat
  n = 10 || n = 13 || n = 0x2028 || n = 0x2029

/-- `String.prototype.trim`: strip JS whitespace from both ends. -/
def jsTrim (s : String) : String :=
  String.mk (((s.toList.dropWhile jsWhitespace).reverse.dropWhile jsWhitespace).reverse)

/-- Index of the last occurrence of a character in a character list. -/
def lastIdxOf (ch : Char) : List Char → Option Nat
  | [] => none
  | c :: cs =>
    match lastIdxOf ch cs with
    | some i => some (i + 1)
    | none => if c = ch then some 0 else none

/-- `path.basename` for the forward-slash paths used in this repository. -/
def basename (p : String) : String :=
  (jsSplit p '/').getLastD ""

/-- `path.extname`: the suffix of the basename from its last dot, empty when
there is no dot or the only dot is the leading character. -/
def extname (p : String) : String :=
  let b := (basename p).toList
  match lastIdxOf '.' b with
  | some i => if i = 0 then "" else String.mk (b.drop i)
  | none => ""

/-- `path.join(dirPath, item)` as used on the already-normalized segments the
traversal produces. -/
def joinPath (dir item : String) : String :=
  dir ++ "/" ++ item

/-- `filename.replace(/\.[^/.]+$/, "")`: strip a final extension made of one
or more characters that are neither `.` nor `/`. -/
def stripExt (fn : String) : String :=
  let cs := fn.toList
  match lastIdxOf '.' cs with
  | some i =>
    let suffix := cs.drop (i + 1)
    if (!suffix.isEmpty) && suffix.all (fun c => c != '.' && c != '/') then
      String.mk (cs.take i)
    else fn
  | none => fn

/-! ## Regex engine for the source's pattern shapes

Every global pattern in `documentProcessor.ts` has the shape
`HEAD SEPCLASS+ (CAPCLASS+)`:
- `/(?:POST|GET|PUT|DELETE)\s+([^\s]+)/g`
- `/endpoint[:\s]+([^\s]+)/gi` and `/url[:\s]+([^\s]+)/gi`
- `/rule[:\s]+([^\n]+)/gi`, `/validation[:\s]+([^\n]+)/gi`,
  `/must[:\s]+([^\n]+)/gi`, `/should[:\s]+([^\n]+)/gi`

The engine below implements JS `RegExp.prototype.exec` semantics for that
shape: leftmost match, alternatives tried in order, greedy `+` with
backtracking, and the `lastIndex` loop of repeated `exec` on a `g` regex. -/

/-- Length of the greedy run of class `p` at the front of `cs`. -/
def runLen (p : Char → Bool) : List Char → Nat
  | [] => 0
  | c :: cs => if p c then runLen p cs + 1 else 0

/-- Backtracking tail `SEP+ (CAP+)` after the head, trying the greedy
separator length first and giving characters back one at a time: returns the
capture and the number of characters consumed. -/
def sepCapGo (cap : Char → Bool) (cs : List Char) : Nat → Option (String × Nat)
  | 0 => none
  | k + 1 =>
    let rest := cs.drop (k + 1)
    let cl := runLen cap rest
    if cl = 0 then sepCapGo cap cs k
    else some (String.mk (rest.take cl), (k + 1) + cl)

/-- Match `SEP+ (CAP+)` at the front of `cs` (greedy, with backtracking). -/
def sepCapPlus (sep cap : Char → Bool) (cs : List Char) : Option (String × Nat) :=
  sepCapGo cap cs (runLen sep cs)

/-- A source regex of shape `HEAD SEP+ (CAP+)`: alternative literal heads,
case-insensitivity flag, separator class and capture class. -/
structure RePat where
  heads : List String
  ci : Bool
  sep : Char → Bool
  cap : Char → Bool

/-- Try the alternative heads, in order, at the current position; on a head
match the tail must also match for the alternative to succeed. -/
def tryAlts (pat : RePat) (cs : List Char) : List String → Option (String × Nat)
  | [] => none
  | h :: hs =>
    let hl := h.toList
    if headMatches pat.ci hl cs then
      match sepCapPlus pat.sep pat.cap (cs.drop hl.length) with
      | some (tok, n) => some (tok, hl.length + n)
      | none => tryAlts pat cs hs
    else tryAlts pat cs hs

/-- One `exec`: scan left to right for the leftmost match; returns the capture
and the input remaining after the match (the `lastIndex` continuation). -/
def execScan (pat : RePat) : List Char → Option (String × List Char)
  | [] => none
  | c :: cs =>
    match tryAlts pat (c :: cs) pat.heads with
    | some (tok, n) => some (tok, (c :: cs).drop n)
    | none => execScan pat cs

/-- The `while ((match = pattern.exec(content)) !== null)` loop: all captures
in order.  The fuel is the input length; every match consumes at least one
character, so the fuel never runs out before `exec` fails. -/
def matchAllGo (pat : RePat) : Nat → List Char → List String
  | 0, _ => []
  | fuel + 1, cs =>
    match execScan pat cs with
    | none => []
    | some (tok, rest) => tok :: matchAllGo pat fuel rest

/-- All captures of a global regex over the content. -/
def matchAll (pat : RePat) (content : String) : List String :=
  matchAllGo pat (content.length + 1) content.toList

/-- The `[:\s]` separator class of the `endpoint`/`url`/rule-cue patterns. -/
def sepColonWs (c : Char) : Bool :=
  c = ':' || jsWhitespace c

/-- The `[^\s]` capture class. -/
def capNonWs (c : Char) : Bool :=
  !jsWhitespace c

/-- The `[^\n]` capture class. -/
def capNonNl (c : Char) : Bool :=
  c != '\n'

/-! ## Data model (`DocumentContent`, `ProcessedKnowledge` and friends) -/

/-- The `'docx' | 'xml' | 'pdf'` union of `DocumentContent.type`. -/
inductive DocType where
  | docx
  | xml
  | pdf
deriving DecidableEq, Repr

/-- A JS value sitting in the `modified` slot: the pipeline stores a `Date`
(epoch milliseconds); a cache reload stores the ISO string `JSON.parse`
leaves there. -/
inductive JsTime where
  | date (ms : Int)
  | str (s : String)
deriving DecidableEq, Repr

/-- The `metadata` record of `DocumentContent`. -/
structure DocMetadata where
  size : Nat
  modified : JsTime
  path : String
deriving DecidableEq, Repr

/-- `DocumentContent` from `documentProcessor.ts`. -/
structure DocumentContent where
  filename : String
  title : String
  content : String
  type : DocType
  category : String
  metadata : DocMetadata
deriving DecidableEq, Repr

/-- `EndpointInfo`; the two optional example fields are never assigned by the
pipeline. -/
structure EndpointInfo where
  name : String
  description : String
  method : String
  url : String
  requestExample : Option String
  responseExample : Option String
  category : String
  source : String
deriving DecidableEq, Repr

/-- The `'request' | 'response'` union of `ExampleInfo.type`. -/
inductive ExType where
  | request
  | response
deriving DecidableEq, Repr

/-- `ExampleInfo`. -/
structure ExampleInfo where
  name : String
  type : ExType
  content : String
  operation : String
  source : String
deriving DecidableEq, Repr

/-- `RuleInfo`. -/
structure RuleInfo where
  name : String
  description : String
  category : String
  source : String
deriving DecidableEq, Repr

/-- `ProcessedKnowledge`: the knowledge base aggregate. -/
structure ProcessedKnowledge where
  documents : List DocumentContent
  endpoints : List EndpointInfo
  examples : List ExampleInfo
  rules : List RuleInfo
deriving DecidableEq, Repr

/-- The knowledge base the constructor initializes. -/
def emptyKnowledge : ProcessedKnowledge :=
  { documents := [], endpoints := [], examples := [], rules := [] }

/-- Componentwise append of knowledge bases. -/
def knowledgeAppend (a b : ProcessedKnowledge) : ProcessedKnowledge :=
  { documents := a.documents ++ b.documents
    endpoints := a.endpoints ++ b.endpoints
    examples := a.examples ++ b.examples
    rules := a.rules ++ b.rules }

/-! ## Document classifier (`extractTitle`, `categorizeDocument`) -/

/-- The JS `.` class (no `s` flag): any character but a line terminator. -/
def dotClass (c : Char) : Bool :=
  !isLineTerm c

/-- Backtracking tail `\s*(.+)$` (multiline) after a title head: try the
greedy separator length first, down to the empty separator. -/
def sepStarGo (cap : Char → Bool) (cs : List Char) : Nat → Option String
  | 0 =>
    let cl := runLen cap cs
    if cl = 0 then none else some (String.mk (cs.take cl))
  | k + 1 =>
    let rest := cs.drop (k + 1)
    let cl := runLen cap rest
    if cl = 0 then sepStarGo cap cs k
    else some (String.mk (rest.take cl))

/-- Match `\s*(.+)` at the front of `cs`; the closing multiline `$` holds
automatically because the greedy `.+` run stops only at a line terminator or
the end of input. -/
def sepStarCap (sep cap : Char → Bool) (cs : List Char) : Option String :=
  sepStarGo cap cs (runLen sep cs)

/-- First match of a `/^HEAD\s*(.+)$/m` title pattern: scan the line-start
positions for the literal head followed by the whitespace-and-rest tail.
`atStart` tracks whether the current position begins a line. -/
def titleHeadScan (head : List Char) (ci : Bool) : Bool → List Char → Option String
  | _, [] => none
  | atStart, c :: cs =>
    match
      (if atStart && headMatches ci head (c :: cs) then
        sepStarCap jsWhitespace dotClass ((c :: cs).drop head.length)
      else none) with
    | some t => some t
    | none => titleHeadScan head ci (isLineTerm c) cs

/-- First match of `/^(.+)\n={3,}$/m`: a non-empty line whose following line
(joined by a literal `\n`) consists of three or more `=` up to a line
terminator or the end of input; captures the underlined line. -/
def underlineScan : Bool → List Char → Option String
  | _, [] => none
  | atStart, c :: cs =>
    match
      (if atStart then
        let line := runLen dotClass (c :: cs)
        if line = 0 then none
        else
          match (c :: cs).drop line with
          | '\n' :: rest2 =>
            let eqs := runLen (fun ch => ch = '=') rest2
            if decide (3 ≤ eqs) &&
                (match rest2.drop eqs with
                 | [] => true
                 | c2 :: _ => isLineTerm c2) then
              some (String.mk ((c :: cs).take line))
            else none
          | _ => none
      else none) with
    | some t => some t
    | none => underlineScan (isLineTerm c) cs

/-- `extractTitle`: try the markdown `#` title, the `Title:` line and the
`=`-underlined title, in that order; the first match wins (trimmed), else the
filename with its extension stripped. -/
def extractTitle (filename content : String) : String :=
  let cs := content.toList
  match titleHeadScan ['#'] false true cs with
  | some t => jsTrim t
  | none =>
    match titleHeadScan "Title:".toList false true cs with
    | some t => jsTrim t
    | none =>
      match underlineScan true cs with
      | some t => jsTrim t
      | none => stripExt filename

/-- `categorizeDocument`: case-insensitive substring match on the filename,
first hit in the fixed precedence order wins. -/
def categorizeDocument (filename : String) : String :=
  let lower := jsToLower filename
  if jsIncludes lower "cf1" then "Basic Connectivity"
  else if jsIncludes lower "cf2" then "Submit DDS"
  else if jsIncludes lower "cf3" then "Retrieve DDS Status"
  else if jsIncludes lower "cf4" then "Error Conditions"
  else if jsIncludes lower "cf5" then "Amend DDS"
  else if jsIncludes lower "cf6" then "Retract DDS"
  else if jsIncludes lower "cf7" then "Retrieve Referenced DDS"
  else if jsIncludes lower "validation" then "Validation Rules"
  else if jsIncludes lower "specification" then "API Specifications"
  else if jsIncludes lower "development" then "Development Options"
  else if jsIncludes lower "geojson" then "GeoJSON"
  else if jsIncludes lower "python" then "Python Examples"
  else if jsIncludes lower "request" then "Request Examples"
  else if jsIncludes lower "response" then "Response Examples"
  else "General"

/-! ## Structured extractors -/

/-- `/(?:POST|GET|PUT|DELETE)\s+([^\s]+)/g`. -/
def verbPat : RePat :=
  { heads := ["POST", "GET", "PUT", "DELETE"], ci := false
    sep := jsWhitespace, cap := capNonWs }

/-- `/endpoint[:\s]+([^\s]+)/gi`. -/
def endpointPat : RePat :=
  { heads := ["endpoint"], ci := true, sep := sepColonWs, cap := capNonWs }

/-- `/url[:\s]+([^\s]+)/gi`. -/
def urlPat : RePat :=
  { heads := ["url"], ci := true, sep := sepColonWs, cap := capNonWs }

/-- The `endpointPatterns` array, in source order. -/
def endpointPatterns : List RePat :=
  [verbPat, endpointPat, urlPat]

/-- `extractOperationName`: category plus the last `/`-separated segment. -/
def extractOperationName (endpoint category : String) : String :=
  let parts := jsSplit endpoint '/'
  category ++ " - " ++ parts.getLastD ""

/-- The line test of the description scan: trimmed line non-empty, not
containing the token, longer than 20 characters. -/
def goodDescLine (endpoint l : String) : Bool :=
  let t := jsTrim l
  (t != "") && (!jsIncludes t endpoint) && decide (20 < t.length)

/-- `extractEndpointDescription`: find the first line containing the token;
scan lines `max(0, L-3)` up to exclusive `min(lines.length, L+3)` for the
first line passing the test; else the fallback description. -/
def extractEndpointDescription (content endpoint : String) : String :=
  let lines := jsSplit content '\n'
  match lines.findIdx? (fun line => jsIncludes line endpoint) with
  | some el =>
    let lo := el - 3
    let hi := min lines.length (el + 3)
    match ((lines.drop lo).take (hi - lo)).find? (goodDescLine endpoint) with
    | some l => jsTrim l
    | none => endpoint ++ " endpoint"
  | none => endpoint ++ " endpoint"

/-- Backtracking tail `\s+LITERAL` of the method regex: try the greedy
whitespace run first, giving characters back one at a time. -/
def methodSepLitGo (endpoint : List Char) (rest : List Char) : Nat → Bool
  | 0 => false
  | k + 1 =>
    if headMatches true endpoint (rest.drop (k + 1)) then true
    else methodSepLitGo endpoint rest k

/-- Match `\s+LITERAL` at the front of `rest`, case-insensitively. -/
def methodSepLit (endpoint : List Char) (rest : List Char) : Bool :=
  methodSepLitGo endpoint rest (runLen jsWhitespace rest)

/-- Try the verb alternatives of `(POST|GET|PUT|DELETE)\s+LITERAL` in order at
the current position (the `i` flag applies to the verbs too). -/
def methodAlts (endpoint : List Char) (cs : List Char) : List String → Option String
  | [] => none
  | v :: vs =>
    if headMatches true v.toList cs && methodSepLit endpoint (cs.drop v.toList.length) then
      some v
    else methodAlts endpoint cs vs

/-- Leftmost match scan of the method regex. -/
def methodScan (endpoint : List Char) : List Char → Option String
  | [] => none
  | c :: cs =>
    match methodAlts endpoint (c :: cs) ["POST", "GET", "PUT", "DELETE"] with
    | some v => some v
    | none => methodScan endpoint cs

/-- `extractMethod`: search the content for an HTTP verb, whitespace, then the
regex-escaped endpoint literal, case-insensitively; the captured verb is
upper-cased (so it equals the canonical verb name); default `POST`. -/
def extractMethod (content endpoint : String) : String :=
  match methodScan endpoint.toList content.toList with
  | some v => v
  | none => "POST"

/-- The Endpoint record pushed for one qualifying match. -/
def endpointRecord (doc : DocumentContent) (endpoint : String) : EndpointInfo :=
  { name := extractOperationName endpoint doc.category
    description := extractEndpointDescription doc.content endpoint
    method := extractMethod doc.content endpoint
    url := endpoint
    requestExample := none
    responseExample := none
    category := doc.category
    source := doc.filename }

/-- The `if (endpoint && endpoint.includes('/'))` guarded push. -/
def pushEndpoint (doc : DocumentContent) (k : ProcessedKnowledge) (endpoint : String) :
    ProcessedKnowledge :=
  if endpoint != "" && jsIncludes endpoint "/" then
    { k with endpoints := k.endpoints ++ [endpointRecord doc endpoint] }
  else k

/-- `extractEndpoints`: the three regex passes, every match fed through the
guarded push, in source order. -/
def extractEndpoints (doc : DocumentContent) (k : ProcessedKnowledge) : ProcessedKnowledge :=
  endpointPatterns.foldl
    (fun k pat => (matchAll pat doc.content).foldl (pushEndpoint doc) k) k

/-- `extractOperationFromFilename`: fixed keyword vocabulary, first hit wins. -/
def extractOperationFromFilename (filename : String) : String :=
  let lower := jsToLower filename
  if jsIncludes lower "echo" then "EchoService"
  else if jsIncludes lower "submit" then "SubmitDDS"
  else if jsIncludes lower "retrieve" then "RetrieveDDS"
  else if jsIncludes lower "amend" then "AmendDDS"
  else if jsIncludes lower "retract" then "RetractDDS"
  else if jsIncludes lower "statement" then "GetStatement"
  else "Unknown"

/-- The Example record pushed for a qualifying XML document. -/
def exampleRecord (doc : DocumentContent) : ExampleInfo :=
  { name := doc.title
    type := if jsIncludes (jsToLower doc.filename) "request" then ExType.request else ExType.response
    content := doc.content
    operation := extractOperationFromFilename doc.filename
    source := doc.filename }

/-- `extractExamples`: XML documents whose lowercased filename contains
`request` or `response` contribute exactly one Example. -/
def extractExamples (doc : DocumentContent) (k : ProcessedKnowledge) : ProcessedKnowledge :=
  if doc.type = DocType.xml then
    if jsIncludes (jsToLower doc.filename) "request" || jsIncludes (jsToLower doc.filename) "response" then
      { k with examples := k.examples ++ [exampleRecord doc] }
    else k
  else k

/-- One rule-cue pattern `/WORD[:\s]+([^\n]+)/gi`. -/
def ruleCue (w : String) : RePat :=
  { heads := [w], ci := true, sep := sepColonWs, cap := capNonNl }

/-- The `rulePatterns` array, in source order. -/
def rulePatterns : List RePat :=
  [ruleCue "rule", ruleCue "validation", ruleCue "must", ruleCue "should"]

/-- The Rule record pushed for one match: name and description are the same
trimmed captured text. -/
def ruleRecord (doc : DocumentContent) (m : String) : RuleInfo :=
  { name := jsTrim m
    description := jsTrim m
    category := "Validation"
    source := doc.filename }

/-- `extractRules`: only for documents categorized `Validation Rules`; every
match of the four cue patterns pushes one Rule. -/
def extractRules (doc : DocumentContent) (k : ProcessedKnowledge) : ProcessedKnowledge :=
  if doc.category = "Validation Rules" then
    rulePatterns.foldl
      (fun k pat =>
        (matchAll pat doc.content).foldl
          (fun k m => { k with rules := k.rules ++ [ruleRecord doc m] }) k) k
  else k

/-- `extractStructuredInfo`: endpoints, then examples, then rules. -/
def extractStructuredInfo (doc : DocumentContent) (k : ProcessedKnowledge) : ProcessedKnowledge :=
  extractRules doc (extractExamples doc (extractEndpoints doc k))

/-! ## Per-format processors and the pipeline orchestrator

A `SrcFile` is one discovered file together with the outcomes of the external
calls the processor makes on it: `fs.statSync` at the top of
`processDocument` (outside the try block, so a throw escapes to the
orchestrator), the DOCX decoder (`fs.readFileSync` + mammoth), the XML read
(`fs.readFileSync`) and parse (`xml2js.parseString`, whose successful result
is the `JSON.stringify(parsed, null, 2)` text), and the PDF decoder (pdfjs
pages as lists of text fragments). -/

/-- One source file with its external-call outcomes. -/
structure SrcFile where
  path : String
  size : Nat
  mtimeMs : Int
  statThrows : Bool
  docxDecode : Except Unit String
  xmlRead : Except Unit String
  xmlParse : Option String
  pdfPages : Except Unit (List (List String))

/-- `processDOCX`: the decoder's text, or the placeholder error string when
the read or the decoder throws. -/
def processDOCX (f : SrcFile) : String :=
  match f.docxDecode with
  | .ok t => t
  | .error _ => "Error processing DOCX: " ++ f.path

/-- `processXML`: pretty-printed JSON of the parse tree; raw file text when
only the parse fails; the placeholder error string when the read throws. -/
def processXML (f : SrcFile) : String :=
  match f.xmlRead with
  | .error _ => "Error processing XML: " ++ f.path
  | .ok raw =>
    match f.xmlParse with
    | some pretty => pretty
    | none => raw

/-- `processPDF`: page fragments joined by single spaces, each page followed
by one newline; the placeholder error string when the read or pdfjs throws. -/
def processPDF (f : SrcFile) : String :=
  match f.pdfPages with
  | .error _ => "Error processing PDF: " ++ f.path
  | .ok pages => String.join (pages.map (fun items => String.intercalate " " items ++ "\n"))

/-- Build the `DocumentContent` literal returned by `processDocument`. -/
def buildDocument (f : SrcFile) (content : String) (ty : DocType) : DocumentContent :=
  let filename := basename f.path
  { filename := filename
    title := extractTitle filename content
    content := content
    type := ty
    category := categorizeDocument filename
    metadata := { size := f.size, modified := JsTime.date f.mtimeMs, path := f.path } }

/-- `processDocument`: `statSync` first (a throw escapes), then dispatch on
the lowercased extension; unsupported extensions yield `null`. -/
def processDocument (f : SrcFile) : Except Unit (Option DocumentContent) :=
  if f.statThrows then .error () else
  let ext := jsToLower (extname f.path)
  if ext = ".docx" then .ok (some (buildDocument f (processDOCX f) DocType.docx))
  else if ext = ".xml" then .ok (some (buildDocument f (processXML f) DocType.xml))
  else if ext = ".pdf" then .ok (some (buildDocument f (processPDF f) DocType.pdf))
  else .ok none

/-- One iteration of the orchestrator loop: a throw is caught and logged (the
file is skipped); a `null` document is skipped; otherwise the document is
appended and structured extraction runs on it. -/
def processOne (k : ProcessedKnowledge) (f : SrcFile) : ProcessedKnowledge :=
  match processDocument f with
  | .error _ => k
  | .ok none => k
  | .ok (some doc) =>
    extractStructuredInfo doc { k with documents := k.documents ++ [doc] }

/-- `processAllDocuments` over the discovered files, accumulating into the
processor's current knowledge (the instance field initialized by the
constructor and never reset). -/
def processAllDocuments (files : List SrcFile) (k : ProcessedKnowledge) : ProcessedKnowledge :=
  files.foldl processOne k

/-! ## File discovery (`getAllFiles`) -/

/-- A file-system node: a plain file or a directory with named entries. -/
inductive FsNode where
  | file
  | dir (entries : List (String × FsNode))

/-- `isSupportedFile`: the lowercased extension is `.docx`, `.xml` or `.pdf`. -/
def isSupportedFile (filename : String) : Bool :=
  let ext := jsToLower (extname filename)
  ext = ".docx" || ext = ".xml" || ext = ".pdf"

mutual

/-- Traversal of an existing directory node: recurse into subdirectories,
keep supported files.  (`readdirSync` on a plain file would throw; the
recursion only ever descends into directory entries.) -/
def walkNode (dirPath : String) : FsNode → List String
  | .file => []
  | .dir entries => walkEntries dirPath entries

/-- The `for (const item of items)` body of `getAllFiles`. -/
def walkEntries (dirPath : String) : List (String × FsNode) → List String
  | [] => []
  | (item, node) :: rest =>
    let fullPath := joinPath dirPath item
    (match node with
     | .dir es => walkNode fullPath (.dir es)
     | .file => if isSupportedFile item then [fullPath] else []) ++
    walkEntries dirPath rest

end

/-- `getAllFiles`: `none` models `fs.existsSync(dirPath)` returning false, in
which case the empty list is returned before any file-system call that could
throw; a root that exists but is a plain file makes `readdirSync` throw. -/
def DocumentProcessor.getAllFiles (dirPath : String) (root : Option FsNode) :
    Except Unit (List String) :=
  match root with
  | none => .ok []
  | some FsNode.file => .error ()
  | some (FsNode.dir entries) => .ok (walkEntries dirPath entries)

/-! ## The cache JSON format (`saveKnowledge` and the cache-loading read)

`saveKnowledge` writes `JSON.stringify(this.knowledge, null, 2)`;
`initializeKnowledgeBase` reads the file and uses `JSON.parse(cached)`
directly as the knowledge base.  The JSON text round-trips to the identical
JSON tree, so serialization is modelled at the tree level: `knowledgeToJson`
is the tree `JSON.stringify` renders (a `Date` contributes its `toJSON` ISO
string), and `jsonToKnowledge` reads the parsed tree back as the collaborators
observe it. -/

/-- A JSON value. -/
inductive Json where
  | null
  | bool (b : Bool)
  | num (n : Int)
  | str (s : String)
  | arr (xs : List Json)
  | obj (fields : List (String × Json))

/-- Left-pad a numeral with zeros to the given width. -/
def padN (w : Nat) (n : Nat) : String :=
  let s := toString n
  if s.length < w then String.mk (List.replicate (w - s.length) '0') ++ s else s

/-- Year field of `Date.prototype.toISOString`: four digits inside
0..9999, otherwise a sign and six digits. -/
def padYear (y : Int) : String :=
  if 0 ≤ y ∧ y ≤ 9999 then padN 4 y.toNat
  else if y < 0 then "-" ++ padN 6 (-y).toNat
  else "+" ++ padN 6 y.toNat

/-- Proleptic Gregorian civil date from days since the Unix epoch. -/
def civilFromDays (z0 : Int) : Int × Nat × Nat :=
  let z := z0 + 719468
  let era := Int.fdiv z 146097
  let doe := (z - era * 146097).toNat
  let yoe := (doe - doe / 1460 + doe / 36524 - doe / 146096) / 365
  let doy := doe - (365 * yoe + yoe / 4 - yoe / 100)
  let mp := (5 * doy + 2) / 153
  let d := doy - (153 * mp + 2) / 5 + 1
  let m := if mp < 10 then mp + 3 else mp - 9
  (era * 400 + yoe + (if m ≤ 2 then 1 else 0), m, d)

/-- `Date.prototype.toISOString` on epoch milliseconds. -/
def isoOfMs (ms : Int) : String :=
  let day := Int.fdiv ms 86400000
  let msod := (ms - day * 86400000).toNat
  let ymd := civilFromDays day
  padYear ymd.1 ++ "-" ++ padN 2 ymd.2.1 ++ "-" ++ padN 2 ymd.2.2 ++ "T" ++
    padN 2 (msod / 3600000) ++ ":" ++ padN 2 (msod % 3600000 / 60000) ++ ":" ++
    padN 2 (msod % 60000 / 1000) ++ "." ++ padN 3 (msod % 1000) ++ "Z"

/-- How the `modified` slot serializes: a `Date` via `toJSON` (its ISO
string), a string as itself. -/
def jsTimeToJson : JsTime → Json
  | .date ms => .str (isoOfMs ms)
  | .str s => .str s

/-- The `'docx' | 'xml' | 'pdf'` tag as serialized. -/
def docTypeStr : DocType → String
  | .docx => "docx"
  | .xml => "xml"
  | .pdf => "pdf"

/-- The `'request' | 'response'` tag as serialized. -/
def exTypeStr : ExType → String
  | .request => "request"
  | .response => "response"

/-- `metadata` as serialized (insertion order: size, modified, path). -/
def metadataToJson (m : DocMetadata) : Json :=
  .obj [("size", .num m.size), ("modified", jsTimeToJson m.modified), ("path", .str m.path)]

/-- A document as serialized (insertion order of `processDocument`'s literal). -/
def docToJson (d : DocumentContent) : Json :=
  .obj [("filename", .str d.filename), ("title", .str d.title),
        ("content", .str d.content), ("type", .str (docTypeStr d.type)),
        ("category", .str d.category), ("metadata", metadataToJson d.metadata)]

/-- An endpoint as serialized; the optional example fields are omitted by
`JSON.stringify` when absent. -/
def endpointToJson (e : EndpointInfo) : Json :=
  .obj ([("name", .str e.name), ("description", .str e.description),
         ("method", .str e.method), ("url", .str e.url)] ++
    (match e.requestExample with | some s => [("requestExample", Json.str s)] | none => []) ++
    (match e.responseExample with | some s => [("responseExample", Json.str s)] | none => []) ++
    [("category", .str e.category), ("source", .str e.source)])

/-- An example as serialized. -/
def exampleToJson (x : ExampleInfo) : Json :=
  .obj [("name", .str x.name), ("type", .str (exTypeStr x.type)),
        ("content", .str x.content), ("operation", .str x.operation),
        ("source", .str x.source)]

/-- A rule as serialized. -/
def ruleToJson (r : RuleInfo) : Json :=
  .obj [("name", .str r.name), ("description", .str r.description),
        ("category", .str r.category), ("source", .str r.source)]

/-- The whole knowledge base as serialized by `saveKnowledge`. -/
def knowledgeToJson (k : ProcessedKnowledge) : Json :=
  .obj [("documents", .arr (k.documents.map docToJson)),
        ("endpoints", .arr (k.endpoints.map endpointToJson)),
        ("examples", .arr (k.examples.map exampleToJson)),
        ("rules", .arr (k.rules.map ruleToJson))]

/-- Field access on a parsed JSON object. -/
def jsonLookup (fields : List (String × Json)) (key : String) : Option Json :=
  (fields.find? (fun p => p.1 == key)).map (fun p => p.2)

/-- Read a JSON string. -/
def jsonStr : Json → Option String
  | .str s => some s
  | _ => none

/-- Read a JSON number as the non-negative integer the `size` field holds. -/
def jsonNat : Json → Option Nat
  | .num n => if n < 0 then none else some n.toNat
  | _ => none

/-- Read the format tag. -/
def jsonDocType (j : Json) : Option DocType :=
  match jsonStr j with
  | some "docx" => some DocType.docx
  | some "xml" => some DocType.xml
  | some "pdf" => some DocType.pdf
  | _ => none

/-- Read the example-type tag. -/
def jsonExType (j : Json) : Option ExType :=
  match jsonStr j with
  | some "request" => some ExType.request
  | some "response" => some ExType.response
  | _ => none

/-- Read `metadata` back: `modified` is whatever string `JSON.parse` left. -/
def jsonToMetadata : Json → Option DocMetadata
  | .obj fields => do
    let size ← jsonLookup fields "size" >>= jsonNat
    let modified ← jsonLookup fields "modified" >>= jsonStr
    let path ← jsonLookup fields "path" >>= jsonStr
    pure { size := size, modified := JsTime.str modified, path := path }
  | _ => none

/-- Read one document back. -/
def jsonToDoc : Json → Option DocumentContent
  | .obj fields => do
    let filename ← jsonLookup fields "filename" >>= jsonStr
    let title ← jsonLookup fields "title" >>= jsonStr
    let content ← jsonLookup fields "content" >>= jsonStr
    let ty ← jsonLookup fields "type" >>= jsonDocType
    let category ← jsonLookup fields "category" >>= jsonStr
    let metadata ← jsonLookup fields "metadata" >>= jsonToMetadata
    pure { filename := filename, title := title, content := content, type := ty,
           category := category, metadata := metadata }
  | _ => none

/-- Read one endpoint back; a missing optional key reads as `none`. -/
def jsonToEndpoint : Json → Option EndpointInfo
  | .obj fields => do
    let name ← jsonLookup fields "name" >>= jsonStr
    let description ← jsonLookup fields "description" >>= jsonStr
    let method ← jsonLookup fields "method" >>= jsonStr
    let url ← jsonLookup fields "url" >>= jsonStr
    let category ← jsonLookup fields "category" >>= jsonStr
    let source ← jsonLookup fields "source" >>= jsonStr
    pure { name := name, description := description, method := method, url := url
           requestExample := (jsonLookup fields "requestExample").bind jsonStr
           responseExample := (jsonLookup fields "responseExample").bind jsonStr
           category := category, source := source }
  | _ => none

/-- Read one example back. -/
def jsonToExample : Json → Option ExampleInfo
  | .obj fields => do
    let name ← jsonLookup fields "name" >>= jsonStr
    let ty ← jsonLookup fields "type" >>= jsonExType
    let content ← jsonLookup fields "content" >>= jsonStr
    let operation ← jsonLookup fields "operation" >>= jsonStr
    let source ← jsonLookup fields "source" >>= jsonStr
    pure { name := name, type := ty, content := content, operation := operation,
           source := source }
  | _ => none

/-- Read one rule back. -/
def jsonToRule : Json → Option RuleInfo
  | .obj fields => do
    let name ← jsonLookup fields "name" >>= jsonStr
    let description ← jsonLookup fields "description" >>= jsonStr
    let category ← jsonLookup fields "category" >>= jsonStr
    let source ← jsonLookup fields "source" >>= jsonStr
    pure { name := name, description := description, category := category,
           source := source }
  | _ => none

/-- Element-wise decoding of a parsed JSON array. -/
def decodeList {α : Type} (dec : Json → Option α) : List Json → Option (List α)
  | [] => some []
  | j :: js => do
    let a ← dec j
    let rest ← decodeList dec js
    pure (a :: rest)

/-- The parsed cache as the collaborators observe it. -/
def jsonToKnowledge : Json → Option ProcessedKnowledge
  | .obj fields => do
    let docs ← jsonLookup fields "documents"
    let eps ← jsonLookup fields "endpoints"
    let exs ← jsonLookup fields "examples"
    let rls ← jsonLookup fields "rules"
    match docs, eps, exs, rls with
    | .arr docs, .arr eps, .arr exs, .arr rls => do
      let documents ← decodeList jsonToDoc docs
      let endpoints ← decodeList jsonToEndpoint eps
      let examples ← decodeList jsonToExample exs
      let rules ← decodeList jsonToRule rls
      pure { documents := documents, endpoints := endpoints, examples := examples,
             rules := rules }
    | _, _, _, _ => none
  | _ => none

/-- What one cache round trip does to the `modified` slot: a `Date` comes
back as its ISO string, a string comes back unchanged. -/
def reviveTime : JsTime → JsTime
  | .date ms => .str (isoOfMs ms)
  | .str s => .str s

/-- A document after one cache round trip. -/
def reviveDoc (d : DocumentContent) : DocumentContent :=
  { d with metadata := { d.metadata with modified := reviveTime d.metadata.modified } }

/-- A knowledge base after one cache round trip. -/
def reviveKnowledge (k : ProcessedKnowledge) : ProcessedKnowledge :=
  { k with documents := k.documents.map reviveDoc }

/-! ## Characterizations and spec-side definitions used by the claims -/

/-- The qualifying captures of the three endpoint passes, mapped to records:
one record per match, duplicates preserved. -/
def endpointsOf (doc : DocumentContent) : List EndpointInfo :=
  ((endpointPatterns.map (fun pat => matchAll pat doc.content)).flatten.filter
    (fun t => t != "" && jsIncludes t "/")).map (endpointRecord doc)

/-- The examples a document contributes: exactly one for an XML document
whose lowercased filename contains `request` or `response`, none otherwise. -/
def examplesOf (doc : DocumentContent) : List ExampleInfo :=
  if doc.type = DocType.xml ∧
      (jsIncludes (jsToLower doc.filename) "request" || jsIncludes (jsToLower doc.filename) "response")
  then [exampleRecord doc] else []

/-- The rules a document contributes: every capture of the four cue patterns,
for documents categorized `Validation Rules` only. -/
def rulesOf (doc : DocumentContent) : List RuleInfo :=
  if doc.category = "Validation Rules" then
    (rulePatterns.map (fun pat => matchAll pat doc.content)).flatten.map (ruleRecord doc)
  else []

/-- The knowledge one file contributes to a run. -/
def deltaOf (f : SrcFile) : ProcessedKnowledge :=
  match processDocument f with
  | .ok (some doc) =>
    { documents := [doc], endpoints := endpointsOf doc, examples := examplesOf doc,
      rules := rulesOf doc }
  | _ => emptyKnowledge

/-- The category precedence table in the order the spec lists it. -/
def categoryTable : List (String × String) :=
  [("cf1", "Basic Connectivity"), ("cf2", "Submit DDS"), ("cf3", "Retrieve DDS Status"),
   ("cf4", "Error Conditions"), ("cf5", "Amend DDS"), ("cf6", "Retract DDS"),
   ("cf7", "Retrieve Referenced DDS"), ("validation", "Validation Rules"),
   ("specification", "API Specifications"), ("development", "Development Options"),
   ("geojson", "GeoJSON"), ("python", "Python Examples"),
   ("request", "Request Examples"), ("response", "Response Examples")]

/-- The operation vocabulary in the order the spec lists it. -/
def operationTable : List (String × String) :=
  [("echo", "EchoService"), ("submit", "SubmitDDS"), ("retrieve", "RetrieveDDS"),
   ("amend", "AmendDDS"), ("retract", "RetractDDS"), ("statement", "GetStatement")]

/-- The endpoint description exactly as the claim words it: scan the lines
from `L-3` through `L+3` inclusive (clamped to the line range) around the
first line `L` containing the token. -/
def claimEndpointDescription (content endpoint : String) : String :=
  let lines := jsSplit content '\n'
  match lines.findIdx? (fun line => jsIncludes line endpoint) with
  | some el =>
    let lo := el - 3
    let hi := min lines.length (el + 3 + 1)
    match ((lines.drop lo).take (hi - lo)).find? (goodDescLine endpoint) with
    | some l => jsTrim l
    | none => endpoint ++ " endpoint"
  | none => endpoint ++ " endpoint"

/-- The amended description: the scanned window is the lines from `L-3`
through `L+2` (the source loop bound `i < L+3` is exclusive), phrased over
explicit line indices. -/
def amendedEndpointDescription (content endpoint : String) : String :=
  let lines := jsSplit content '\n'
  match lines.findIdx? (fun line => jsIncludes line endpoint) with
  | some el =>
    let lo := el - 3
    let hi := min lines.length (el + 3)
    match (List.range' lo (hi - lo)).find? (fun i => goodDescLine endpoint (lines.getD i "")) with
    | some i => jsTrim (lines.getD i "")
    | none => endpoint ++ " endpoint"
  | none => endpoint ++ " endpoint"

/-! ### Concrete fixtures for the individual claims -/

/-- C1 fixture: one successfully decoded DOCX file. -/
def fileC1 : SrcFile :=
  { path := "documents/guide.docx", size := 5, mtimeMs := 0, statThrows := false
    docxDecode := Except.ok "hello", xmlRead := Except.ok "", xmlParse := none
    pdfPages := Except.ok [] }

/-- C2 fixture: a DOCX file whose decoder throws. -/
def fileC2 : SrcFile :=
  { path := "documents/CF2_submit.docx", size := 9, mtimeMs := 42, statThrows := false
    docxDecode := Except.error (), xmlRead := Except.ok "", xmlParse := none
    pdfPages := Except.ok [] }

/-- C3 fixture: the qualifying line sits exactly three lines below the token
line, inside the claim's window but outside the code's. -/
def contentC3 : String :=
  "POST /api/tok\na\nb\nThis descriptive line is well over twenty characters"

/-- C3 document fixture carrying `contentC3`. -/
def docC3 : DocumentContent :=
  { filename := "doc.docx", title := "doc", content := contentC3, type := DocType.docx
    category := "General"
    metadata := { size := 1, modified := JsTime.date 0, path := "documents/doc.docx" } }

/-- C4 fixtures: the same endpoint mentioned under all three patterns, in two
documents. -/
def fileC4a : SrcFile :=
  { path := "documents/a.docx", size := 1, mtimeMs := 0, statThrows := false
    docxDecode := Except.ok "POST /a\nendpoint: /a\nurl: /a", xmlRead := Except.ok ""
    xmlParse := none, pdfPages := Except.ok [] }

/-- Second C4 document with the same content. -/
def fileC4b : SrcFile :=
  { path := "documents/b.docx", size := 1, mtimeMs := 0, statThrows := false
    docxDecode := Except.ok "POST /a\nendpoint: /a\nurl: /a", xmlRead := Except.ok ""
    xmlParse := none, pdfPages := Except.ok [] }

/-- The record every match of `fileC4a` produces. -/
def recC4 (src : String) : EndpointInfo :=
  { name := "General - a", description := "/a endpoint", method := "POST", url := "/a"
    requestExample := none, responseExample := none, category := "General", source := src }

/-- C6 fixture: the spec's `SubmitDDS_Request_Example.xml` document. -/
def fileC6 : SrcFile :=
  { path := "documents/SubmitDDS_Request_Example.xml", size := 3, mtimeMs := 7
    statThrows := false, docxDecode := Except.ok "", xmlRead := Except.ok "<Submit/>"
    xmlParse := some "json", pdfPages := Except.ok [] }

/-- C7 fixture: a document categorized `Validation Rules` with the spec's
sample content. -/
def docC7 : DocumentContent :=
  { filename := "validation.docx", title := "validation"
    content := "Rule: Geolocation must include at least one point.\n"
    type := DocType.docx, category := "Validation Rules"
    metadata := { size := 1, modified := JsTime.date 0, path := "documents/validation.docx" } }

/-- C9 fixture: one file that contributes a document, an endpoint, an example
and a rule would need several; an endpoint suffices for the witness. -/
def fileC9 : SrcFile :=
  { path := "documents/a.docx", size := 1, mtimeMs := 0, statThrows := false
    docxDecode := Except.ok "POST /a\nendpoint: /a\nurl: /a", xmlRead := Except.ok ""
    xmlParse := none, pdfPages := Except.ok [] }

/-- The format a file dispatches to, by its lowercased extension. -/
def dispatchFormat (f : SrcFile) : Option DocType :=
  let ext := jsToLower (extname f.path)
  if ext = ".docx" then some DocType.docx
  else if ext = ".xml" then some DocType.xml
  else if ext = ".pdf" then some DocType.pdf
  else none

/-- The uppercase format label used in the placeholder error string. -/
def formatLabel : DocType → String
  | .docx => "DOCX"
  | .xml => "XML"
  | .pdf => "PDF"

/-- Whether the dispatched format decoder throws on this file.  For XML that
is the file read: a mere parse failure falls back to the raw text instead of
throwing. -/
def decodeThrew (f : SrcFile) : Bool :=
  match dispatchFormat f with
  | some DocType.docx => (match f.docxDecode with | .error _ => true | .ok _ => false)
  | some DocType.xml => (match f.xmlRead with | .error _ => true | .ok _ => false)
  | some DocType.pdf => (match f.pdfPages with | .error _ => true | .ok _ => false)
  | none => false

/-- The placeholder document produced for a file whose dispatched decoder
throws. -/
def errorDoc (f : SrcFile) (fmt : DocType) : DocumentContent :=
  buildDocument f ("Error processing " ++ formatLabel fmt ++ ": " ++ f.path) fmt

/-- Every derived record's `source` is the filename of some document in the
knowledge base. -/
def sourcesLinked (k : ProcessedKnowledge) : Prop :=
  (∀ e ∈ k.endpoints, ∃ d ∈ k.documents, e.source = d.filename) ∧
  (∀ x ∈ k.examples, ∃ d ∈ k.documents, x.source = d.filename) ∧
  (∀ r ∈ k.rules, ∃ d ∈ k.documents, r.source = d.filename)

/-! ## Lemmas: componentwise structure of the pipeline -/

theorem knowledgeAppend_assoc (a b c : ProcessedKnowledge) :
    knowledgeAppend (knowledgeAppend a b) c = knowledgeAppend a (knowledgeAppend b c) := by
  simp [knowledgeAppend]

theorem knowledgeAppend_empty_left (b : ProcessedKnowledge) :
    knowledgeAppend emptyKnowledge b = b := by
  simp [knowledgeAppend, emptyKnowledge]

theorem knowledgeAppend_empty_right (a : ProcessedKnowledge) :
    knowledgeAppend a emptyKnowledge = a := by
  simp [knowledgeAppend, emptyKnowledge]

/-- The token test of the guarded endpoint push. -/
theorem foldl_pushEndpoint (doc : DocumentContent) (toks : List String) :
    ∀ k : ProcessedKnowledge,
      toks.foldl (pushEndpoint doc) k =
        { k with endpoints := k.endpoints ++
            (toks.filter (fun t => t != "" && jsIncludes t "/")).map (endpointRecord doc) } := by
  induction toks with
  | nil => intro k; simp
  | cons t ts ih =>
    intro k
    simp only [List.foldl_cons, List.filter_cons]
    by_cases h : (t != "" && jsIncludes t "/") = true
    · rw [show pushEndpoint doc k t =
          { k with endpoints := k.endpoints ++ [endpointRecord doc t] } from by
            unfold pushEndpoint; rw [if_pos h]]
      rw [ih]
      simp [h, List.append_assoc]
    · rw [show pushEndpoint doc k t = k from by unfold pushEndpoint; rw [if_neg h]]
      rw [ih]
      simp [h]

/-- The nested loop over the three endpoint patterns, one pattern at a time. -/
theorem foldl_endpointPats (doc : DocumentContent) (pats : List RePat) :
    ∀ k : ProcessedKnowledge,
      pats.foldl (fun k pat => (matchAll pat doc.content).foldl (pushEndpoint doc) k) k =
        { k with endpoints := k.endpoints ++
            ((pats.map (fun pat => matchAll pat doc.content)).flatten.filter
              (fun t => t != "" && jsIncludes t "/")).map (endpointRecord doc) } := by
  induction pats with
  | nil => intro k; simp
  | cons p ps ih =>
    intro k
    simp only [List.foldl_cons, List.map_cons, List.flatten_cons, List.filter_append,
      List.map_append]
    rw [foldl_pushEndpoint, ih]
    simp [List.append_assoc]

/-- `extractEndpoints` only appends the per-document endpoint records. -/
theorem extractEndpoints_eq (doc : DocumentContent) (k : ProcessedKnowledge) :
    extractEndpoints doc k = { k with endpoints := k.endpoints ++ endpointsOf doc } := by
  unfold extractEndpoints endpointsOf
  exact foldl_endpointPats doc endpointPatterns k

/-- `extractExamples` only appends the per-document example records. -/
theorem extractExamples_eq (doc : DocumentContent) (k : ProcessedKnowledge) :
    extractExamples doc k = { k with examples := k.examples ++ examplesOf doc } := by
  unfold extractExamples examplesOf
  by_cases hx : doc.type = DocType.xml
  · by_cases hr : (jsIncludes (jsToLower doc.filename) "request" ||
        jsIncludes (jsToLower doc.filename) "response") = true
    · simp [hx, hr]
    · simp [hx, hr]
  · simp [hx]

/-- The rule-push loop over one pattern's captures. -/
theorem foldl_pushRule (doc : DocumentContent) (ms : List String) :
    ∀ k : ProcessedKnowledge,
      ms.foldl (fun k m => { k with rules := k.rules ++ [ruleRecord doc m] }) k =
        { k with rules := k.rules ++ ms.map (ruleRecord doc) } := by
  induction ms with
  | nil => intro k; simp
  | cons m ms ih =>
    intro k
    simp only [List.foldl_cons, List.map_cons]
    rw [ih]
    simp [List.append_assoc]

/-- The nested loop over the four rule patterns. -/
theorem foldl_rulePats (doc : DocumentContent) (pats : List RePat) :
    ∀ k : ProcessedKnowledge,
      pats.foldl (fun k pat =>
          (matchAll pat doc.content).foldl
            (fun k m => { k with rules := k.rules ++ [ruleRecord doc m] }) k) k =
        { k with rules := k.rules ++
            ((pats.map (fun pat => matchAll pat doc.content)).flatten.map (ruleRecord doc)) } := by
  induction pats with
  | nil => intro k; simp
  | cons p ps ih =>
    intro k
    simp only [List.foldl_cons, List.map_cons, List.flatten_cons, List.map_append]
    rw [foldl_pushRule, ih]
    simp [List.append_assoc]

/-- `extractRules` only appends the per-document rule records. -/
theorem extractRules_eq (doc : DocumentContent) (k : ProcessedKnowledge) :
    extractRules doc k = { k with rules := k.rules ++ rulesOf doc } := by
  unfold extractRules rulesOf
  by_cases hc : doc.category = "Validation Rules"
  · simp only [hc, if_true]
    exact foldl_rulePats doc rulePatterns k
  · simp [hc]

/-- Structured extraction appends the three per-document record lists and
leaves the document list alone. -/
theorem extractStructuredInfo_eq (doc : DocumentContent) (k : ProcessedKnowledge) :
    extractStructuredInfo doc k =
      { k with endpoints := k.endpoints ++ endpointsOf doc
               examples := k.examples ++ examplesOf doc
               rules := k.rules ++ rulesOf doc } := by
  unfold extractStructuredInfo
  rw [extractEndpoints_eq, extractExamples_eq, extractRules_eq]

/-- One orchestrator iteration appends exactly the file's contribution. -/
theorem processOne_eq (k : ProcessedKnowledge) (f : SrcFile) :
    processOne k f = knowledgeAppend k (deltaOf f) := by
  unfold processOne deltaOf
  cases hd : processDocument f with
  | error e => simp [knowledgeAppend, emptyKnowledge]
  | ok o =>
    cases o with
    | none => simp [knowledgeAppend, emptyKnowledge]
    | some doc =>
      simp [extractStructuredInfo_eq, knowledgeAppend]

/-- A run over any starting knowledge is the starting knowledge followed by
the run from the empty knowledge. -/
theorem processAll_eq (files : List SrcFile) :
    ∀ k : ProcessedKnowledge,
      processAllDocuments files k =
        knowledgeAppend k (processAllDocuments files emptyKnowledge) := by
  induction files with
  | nil => intro k; exact (knowledgeAppend_empty_right k).symm
  | cons f fs ih =>
    intro k
    show processAllDocuments fs (processOne k f) =
      knowledgeAppend k (processAllDocuments fs (processOne emptyKnowledge f))
    rw [ih (processOne k f), ih (processOne emptyKnowledge f), processOne_eq k f,
      processOne_eq emptyKnowledge f, knowledgeAppend_empty_left, knowledgeAppend_assoc]

/-! ## Lemmas: the cache round trip -/

/-- Reading back a serialized non-negative size. -/
theorem jsonNat_ofNat (n : Nat) : jsonNat (Json.num (n : Int)) = some n := by
  have h : ¬((n : Int) < 0) := Int.not_lt.mpr (Int.ofNat_nonneg n)
  simp [jsonNat, h]

/-- Reading back serialized metadata turns the modified slot into its
serialized string and keeps everything else. -/
theorem jsonToMetadata_roundTrip (m : DocMetadata) :
    jsonToMetadata (metadataToJson m) = some { m with modified := reviveTime m.modified } := by
  cases m with
  | mk size modified path =>
    cases modified <;>
      simp [jsonToMetadata, metadataToJson, jsonLookup, jsTimeToJson, reviveTime, jsonStr,
        jsonNat_ofNat]

/-- Reading back a serialized document yields the document with a revived
modified slot. -/
theorem jsonToDoc_roundTrip (d : DocumentContent) :
    jsonToDoc (docToJson d) = some (reviveDoc d) := by
  cases d with
  | mk filename title content ty category metadata =>
    cases ty <;>
      simp [jsonToDoc, docToJson, jsonLookup, jsonStr, jsonDocType, docTypeStr,
        jsonToMetadata_roundTrip, reviveDoc]

/-- Reading back a serialized endpoint is exact. -/
theorem jsonToEndpoint_roundTrip (e : EndpointInfo) :
    jsonToEndpoint (endpointToJson e) = some e := by
  cases e with
  | mk n d m u rq rs c s => cases rq <;> cases rs <;> rfl

/-- Reading back a serialized example is exact. -/
theorem jsonToExample_roundTrip (x : ExampleInfo) :
    jsonToExample (exampleToJson x) = some x := by
  cases x with
  | mk name ty content operation source => cases ty <;> rfl

/-- Reading back a serialized rule is exact. -/
theorem jsonToRule_roundTrip (r : RuleInfo) : jsonToRule (ruleToJson r) = some r := rfl

/-- Decoding an encoded list element-wise. -/
theorem decodeList_map_eq {α β : Type} (enc : α → Json) (dec : Json → Option β) (g : α → β)
    (h : ∀ a, dec (enc a) = some (g a)) :
    ∀ l : List α, decodeList dec (l.map enc) = some (l.map g) := by
  intro l
  induction l with
  | nil => rfl
  | cons a l ih => simp [decodeList, h a, ih]

/-- One cache round trip of the whole knowledge base: everything comes back
as it was except that each document's modified slot is now the serialized
string. -/
theorem jsonToKnowledge_roundTrip (k : ProcessedKnowledge) :
    jsonToKnowledge (knowledgeToJson k) = some (reviveKnowledge k) := by
  unfold jsonToKnowledge knowledgeToJson reviveKnowledge
  simp [jsonLookup,
    decodeList_map_eq docToJson jsonToDoc reviveDoc jsonToDoc_roundTrip,
    decodeList_map_eq endpointToJson jsonToEndpoint id jsonToEndpoint_roundTrip,
    decodeList_map_eq exampleToJson jsonToExample id jsonToExample_roundTrip,
    decodeList_map_eq ruleToJson jsonToRule id jsonToRule_roundTrip]

/-- Reviving does not change the serialized time. -/
theorem jsTimeToJson_revive (t : JsTime) : jsTimeToJson (reviveTime t) = jsTimeToJson t := by
  cases t <;> rfl

/-- Reviving does not change a document's serialization. -/
theorem docToJson_revive (d : DocumentContent) : docToJson (reviveDoc d) = docToJson d := by
  cases d with
  | mk filename title content ty category metadata =>
    simp [docToJson, reviveDoc, metadataToJson, jsTimeToJson_revive]

/-- Reviving does not change the knowledge base's serialization: a second
save writes the identical cache. -/
theorem knowledgeToJson_revive (k : ProcessedKnowledge) :
    knowledgeToJson (reviveKnowledge k) = knowledgeToJson k := by
  have h : (k.documents.map reviveDoc).map docToJson = k.documents.map docToJson := by
    rw [List.map_map]
    exact List.map_congr_left (fun d _ => docToJson_revive d)
  unfold knowledgeToJson reviveKnowledge
  rw [h]

/-! ## Lemmas: the description window -/

/-- A found index is inside the list. -/
theorem findIdx?_some_lt {α : Type} (p : α → Bool) :
    ∀ (l : List α) (i : Nat), l.findIdx? p = some i → i < l.length := by
  intro l
  induction l with
  | nil => intro i h; simp [List.findIdx?] at h
  | cons a l ih =>
    intro i h
    rw [List.findIdx?_cons] at h
    by_cases hp : p a = true
    · simp [hp] at h
      simp only [List.length_cons]
      omega
    · simp [hp] at h
      obtain ⟨j, hj, hji⟩ := h
      have := ih j hj
      simp only [List.length_cons]
      omega

/-- Scanning a `drop`/`take` window is scanning the explicit index range. -/
theorem find?_window {α : Type} (p : α → Bool) (d : α) (l : List α) :
    ∀ (n lo : Nat), lo + n ≤ l.length →
      ((l.drop lo).take n).find? p =
        ((List.range' lo n).find? (fun i => p (l.getD i d))).map (fun i => l.getD i d) := by
  intro n
  induction n with
  | zero => intro lo _; simp
  | succ n ih =>
    intro lo h
    have hlo : lo < l.length := by omega
    rw [List.range'_succ, List.drop_eq_getElem_cons hlo, List.take_succ_cons,
      List.find?_cons, List.find?_cons]
    cases hp : p l[lo] with
    | true => simp [List.getD_eq_getElem?_getD, List.getElem?_eq_getElem hlo, hp]
    | false =>
      simp only [List.getD_eq_getElem?_getD, List.getElem?_eq_getElem hlo, Option.getD_some, hp]
      have hih := ih (lo + 1) (by omega)
      simpa [List.getD_eq_getElem?_getD] using hih

/-- First-match table lookup as a right fold (first hit wins). -/
theorem find?_table_eq_foldr {α β : Type} (p : α → Bool) (f : α → β) (d : β) :
    ∀ l : List α, ((l.find? p).map f).getD d = l.foldr (fun a acc => if p a then f a else acc) d := by
  intro l
  induction l with
  | nil => rfl
  | cons a l ih =>
    rw [List.find?_cons, List.foldr_cons]
    cases hp : p a with
    | true => simp [hp]
    | false => simp [hp, ih]

/-! ## Claim theorems -/

/-- C8: file discovery over a non-existent root returns the empty list and
raises nothing — ingestion degrades to an empty knowledge base. -/
theorem spec_C8_missing_root (dirPath : String) :
    DocumentProcessor.getAllFiles dirPath none = Except.ok [] := rfl

/-- C5: the document category is the first case-insensitive substring hit on
the filename, in the fixed precedence order of `categoryTable`, with
`General` when nothing matches; in particular a filename containing both
`CF2` and `validation` resolves to `Submit DDS`. -/
theorem spec_C5_categorize :
    (∀ fn : String, categorizeDocument fn =
      (((categoryTable.find? (fun p => jsIncludes (jsToLower fn) p.1)).map Prod.snd).getD
        "General")) ∧
    categorizeDocument "Report_CF2_validation.xml" = "Submit DDS" := by
  constructor
  · intro fn
    rw [find?_table_eq_foldr]
    rfl
  · decide

/-- C4: endpoint extraction is three independent regex passes, and every
capture containing a `/` yields one Endpoint record with no deduplication —
the same literal URL matched under several patterns or in several documents
produces one record per match (six records for the two C4 fixture files). -/
theorem spec_C4_endpoint_multiset :
    (∀ (doc : DocumentContent) (k : ProcessedKnowledge),
      (extractEndpoints doc k).endpoints = k.endpoints ++
        ((endpointPatterns.map (fun pat => matchAll pat doc.content)).flatten.filter
          (fun t => t != "" && jsIncludes t "/")).map (endpointRecord doc)) ∧
    (processAllDocuments [fileC4a, fileC4b] emptyKnowledge).endpoints =
      [recC4 "a.docx", recC4 "a.docx", recC4 "a.docx",
       recC4 "b.docx", recC4 "b.docx", recC4 "b.docx"] := by
  constructor
  · intro doc k
    rw [extractEndpoints_eq]
    rfl
  · decide

/-- C6: exactly the XML documents whose lowercased filename contains
`request` or `response` contribute exactly one Example (type `request` when
`request` is present, checked first); the operation comes from the fixed
vocabulary of `operationTable` with default `Unknown`; the spec's
`SubmitDDS_Request_Example.xml` yields one request Example for `SubmitDDS`. -/
theorem spec_C6_examples :
    (∀ (doc : DocumentContent) (k : ProcessedKnowledge),
      (extractExamples doc k).examples = k.examples ++
        (if doc.type = DocType.xml ∧
            (jsIncludes (jsToLower doc.filename) "request" ||
              jsIncludes (jsToLower doc.filename) "response")
         then [exampleRecord doc] else [])) ∧
    (∀ fn : String, extractOperationFromFilename fn =
      (((operationTable.find? (fun p => jsIncludes (jsToLower fn) p.1)).map Prod.snd).getD
        "Unknown")) ∧
    (processAllDocuments [fileC6] emptyKnowledge).examples =
      [{ name := "SubmitDDS_Request_Example", type := ExType.request, content := "json",
         operation := "SubmitDDS", source := "SubmitDDS_Request_Example.xml" }] := by
  refine ⟨?_, ?_, by decide⟩
  · intro doc k
    rw [extractExamples_eq]
    rfl
  · intro fn
    rw [find?_table_eq_foldr]
    rfl

/-- C7: rule extraction applies only to documents categorized
`Validation Rules`; every capture of the four cue patterns yields one Rule
whose name and description are the identical trimmed capture and whose
category is the constant `Validation`; the spec's sample content yields its
two captures. -/
theorem spec_C7_rules :
    (∀ (doc : DocumentContent) (k : ProcessedKnowledge),
      (extractRules doc k).rules = k.rules ++
        (if doc.category = "Validation Rules" then
          (rulePatterns.map (fun pat => matchAll pat doc.content)).flatten.map (ruleRecord doc)
         else [])) ∧
    (∀ (doc : DocumentContent) (m : String),
      (ruleRecord doc m).name = jsTrim m ∧ (ruleRecord doc m).description = jsTrim m ∧
      (ruleRecord doc m).category = "Validation") ∧
    (extractRules docC7 emptyKnowledge).rules =
      [ruleRecord docC7 "Geolocation must include at least one point.",
       ruleRecord docC7 "include at least one point."] := by
  refine ⟨?_, fun doc m => ⟨rfl, rfl, rfl⟩, by decide⟩
  intro doc k
  rw [extractRules_eq]
  rfl

/-- C10: a second `processAllDocuments` run on the same instance accumulates
into the same knowledge base, so every document, endpoint, example and rule
of the first run appears a second time. -/
theorem spec_C10_accumulation (files : List SrcFile) :
    (processAllDocuments files (processAllDocuments files emptyKnowledge)).documents =
      (processAllDocuments files emptyKnowledge).documents ++
        (processAllDocuments files emptyKnowledge).documents ∧
    (processAllDocuments files (processAllDocuments files emptyKnowledge)).endpoints =
      (processAllDocuments files emptyKnowledge).endpoints ++
        (processAllDocuments files emptyKnowledge).endpoints ∧
    (processAllDocuments files (processAllDocuments files emptyKnowledge)).examples =
      (processAllDocuments files emptyKnowledge).examples ++
        (processAllDocuments files emptyKnowledge).examples ∧
    (processAllDocuments files (processAllDocuments files emptyKnowledge)).rules =
      (processAllDocuments files emptyKnowledge).rules ++
        (processAllDocuments files emptyKnowledge).rules := by
  have h := processAll_eq files (processAllDocuments files emptyKnowledge)
  exact ⟨by rw [h]; rfl, by rw [h]; rfl, by rw [h]; rfl, by rw [h]; rfl⟩

/-- C1 (amended): one cache round trip reproduces the knowledge base except
that each document's `metadata.modified` Date comes back as its ISO-8601
string (the shape `JSON.parse` leaves); in particular re-serializing the
reloaded knowledge base writes the identical cache JSON. -/
theorem spec_C1_roundtrip (files : List SrcFile) :
    jsonToKnowledge (knowledgeToJson (processAllDocuments files emptyKnowledge)) =
      some (reviveKnowledge (processAllDocuments files emptyKnowledge)) ∧
    knowledgeToJson (reviveKnowledge (processAllDocuments files emptyKnowledge)) =
      knowledgeToJson (processAllDocuments files emptyKnowledge) :=
  ⟨jsonToKnowledge_roundTrip _, knowledgeToJson_revive _⟩

/-- C1 counterexample: for a pipeline run over one ordinary DOCX file,
serializing and deserializing the knowledge base does not reproduce it — the
document's `modified` Date comes back as a string. -/
theorem spec_C1_counterexample :
    jsonToKnowledge (knowledgeToJson (processAllDocuments [fileC1] emptyKnowledge)) ≠
      some (processAllDocuments [fileC1] emptyKnowledge) := by
  decide

/-- C2: when a file's dispatched format decoder throws, the document is still
produced (exactly once) with the literal placeholder content
`Error processing <FORMAT>: <path>`, it is still classified, and structured
extraction still runs on it. -/
theorem spec_C2_decoder_error (k : ProcessedKnowledge) (f : SrcFile) (fmt : DocType)
    (h1 : f.statThrows = false) (h2 : dispatchFormat f = some fmt)
    (h3 : decodeThrew f = true) :
    processDocument f = Except.ok (some (errorDoc f fmt)) ∧
    (errorDoc f fmt).content = "Error processing " ++ formatLabel fmt ++ ": " ++ f.path ∧
    (errorDoc f fmt).category = categorizeDocument (basename f.path) ∧
    (processOne k f).documents = k.documents ++ [errorDoc f fmt] ∧
    processOne k f =
      extractStructuredInfo (errorDoc f fmt)
        { k with documents := k.documents ++ [errorDoc f fmt] } := by
  have hpd : processDocument f = Except.ok (some (errorDoc f fmt)) := by
    unfold decodeThrew at h3
    rw [h2] at h3
    simp only [dispatchFormat] at h2
    split_ifs at h2 with e1 e2 e3
    · simp only [Option.some.injEq] at h2
      subst h2
      simp only at h3
      cases hdec : f.docxDecode with
      | ok t => rw [hdec] at h3; simp at h3
      | error u =>
        simp [processDocument, h1, e1, errorDoc, processDOCX, hdec, formatLabel]
    · simp only [Option.some.injEq] at h2
      subst h2
      simp only at h3
      cases hdec : f.xmlRead with
      | ok t => rw [hdec] at h3; simp at h3
      | error u =>
        simp [processDocument, h1, e1, e2, errorDoc, processXML, hdec, formatLabel]
    · simp only [Option.some.injEq] at h2
      subst h2
      simp only at h3
      cases hdec : f.pdfPages with
      | ok t => rw [hdec] at h3; simp at h3
      | error u =>
        simp [processDocument, h1, e1, e2, e3, errorDoc, processPDF, hdec, formatLabel]
  refine ⟨hpd, rfl, rfl, ?_, ?_⟩
  · unfold processOne
    simp only [hpd]
    rw [extractStructuredInfo_eq]
  · unfold processOne
    simp only [hpd]

/-- Witness: the C2 theorem applied at the concrete fixture `fileC2` (a DOCX
file whose decoder throws), with every hypothesis discharged. -/
theorem spec_C2_decoder_error_witness :
    fileC2.statThrows = false ∧ dispatchFormat fileC2 = some DocType.docx ∧
    decodeThrew fileC2 = true ∧
    (processDocument fileC2 = Except.ok (some (errorDoc fileC2 DocType.docx)) ∧
     (errorDoc fileC2 DocType.docx).content =
       "Error processing " ++ formatLabel DocType.docx ++ ": " ++ fileC2.path ∧
     (errorDoc fileC2 DocType.docx).category = categorizeDocument (basename fileC2.path) ∧
     (processOne emptyKnowledge fileC2).documents =
       emptyKnowledge.documents ++ [errorDoc fileC2 DocType.docx] ∧
     processOne emptyKnowledge fileC2 =
       extractStructuredInfo (errorDoc fileC2 DocType.docx)
         { emptyKnowledge with documents := emptyKnowledge.documents ++
             [errorDoc fileC2 DocType.docx] }) :=
  ⟨rfl, by decide, by decide,
    spec_C2_decoder_error emptyKnowledge fileC2 DocType.docx rfl (by decide) (by decide)⟩

/-- C3 counterexample: the claim's ±3-line window is wrong on the upper side.
On `contentC3` the only qualifying line is exactly three lines below the token
line: the claim's description picks it, but the code's scan (whose upper
bound `L+3` is exclusive) never reaches it and falls back — and the endpoint
record extracted from the fixture indeed carries the fallback description. -/
theorem spec_C3_counterexample :
    extractEndpointDescription contentC3 "/api/tok" = "/api/tok endpoint" ∧
    claimEndpointDescription contentC3 "/api/tok" =
      "This descriptive line is well over twenty characters" ∧
    extractEndpointDescription contentC3 "/api/tok" ≠
      claimEndpointDescription contentC3 "/api/tok" ∧
    (extractEndpoints docC3 emptyKnowledge).endpoints.map EndpointInfo.description =
      ["/api/tok endpoint"] := by
  exact ⟨by decide, by decide, by decide, by decide⟩

/-- C3 (amended): the description is found by scanning the lines from three
above through two below the first line containing the token (the source loop
bound `L+3` is exclusive), taking the first trimmed line that is non-empty,
does not contain the token and is longer than 20 characters, with the
fallback `<token> endpoint` otherwise. -/
theorem spec_C3_description (content endpoint : String) :
    extractEndpointDescription content endpoint =
      amendedEndpointDescription content endpoint := by
  have key : ∀ (lines : List String) (el : Nat), el < lines.length →
      (match ((lines.drop (el - 3)).take (min lines.length (el + 3) - (el - 3))).find?
          (goodDescLine endpoint) with
       | some l => jsTrim l
       | none => endpoint ++ " endpoint") =
      (match (List.range' (el - 3) (min lines.length (el + 3) - (el - 3))).find?
          (fun i => goodDescLine endpoint (lines.getD i "")) with
       | some i => jsTrim (lines.getD i "")
       | none => endpoint ++ " endpoint") := by
    intro lines el hel
    rw [find?_window (goodDescLine endpoint) "" lines
      (min lines.length (el + 3) - (el - 3)) (el - 3) (by omega)]
    cases hr : (List.range' (el - 3) (min lines.length (el + 3) - (el - 3))).find?
        (fun i => goodDescLine endpoint (lines.getD i "")) with
    | none => simp [hr]
    | some i => simp [hr]
  simp only [extractEndpointDescription, amendedEndpointDescription]
  cases hf : (jsSplit content '\n').findIdx? (fun line => jsIncludes line endpoint) with
  | none => rfl
  | some el =>
    exact key (jsSplit content '\n') el
      (findIdx?_some_lt (fun line => jsIncludes line endpoint) (jsSplit content '\n') el hf)

/-- Every record `deltaOf` contributes points at the single document it came
from. -/
theorem sourcesLinked_delta (f : SrcFile) : sourcesLinked (deltaOf f) := by
  unfold deltaOf
  cases hd : processDocument f with
  | error e => exact ⟨fun e h => absurd h (by simp [emptyKnowledge]),
      fun x h => absurd h (by simp [emptyKnowledge]),
      fun r h => absurd h (by simp [emptyKnowledge])⟩
  | ok o =>
    cases o with
    | none => exact ⟨fun e h => absurd h (by simp [emptyKnowledge]),
        fun x h => absurd h (by simp [emptyKnowledge]),
        fun r h => absurd h (by simp [emptyKnowledge])⟩
    | some doc =>
      refine ⟨fun e he => ⟨doc, by simp, ?_⟩, fun x hx => ⟨doc, by simp, ?_⟩,
        fun r hr => ⟨doc, by simp, ?_⟩⟩
      · simp only [endpointsOf, List.mem_map] at he
        obtain ⟨t, _, rfl⟩ := he
        rfl
      · simp only [examplesOf] at hx
        split at hx
        · simp at hx
          subst hx
          rfl
        · simp at hx
      · simp only [rulesOf] at hr
        split at hr
        · simp only [List.mem_map] at hr
          obtain ⟨t, _, rfl⟩ := hr
          rfl
        · simp at hr

/-- Linked sources are preserved by componentwise append. -/
theorem sourcesLinked_append (a b : ProcessedKnowledge)
    (ha : sourcesLinked a) (hb : sourcesLinked b) :
    sourcesLinked (knowledgeAppend a b) := by
  obtain ⟨hae, hax, har⟩ := ha
  obtain ⟨hbe, hbx, hbr⟩ := hb
  refine ⟨fun e he => ?_, fun x hx => ?_, fun r hr => ?_⟩
  · rcases List.mem_append.mp he with h | h
    · obtain ⟨d, hd, hs⟩ := hae e h
      exact ⟨d, List.mem_append.mpr (Or.inl hd), hs⟩
    · obtain ⟨d, hd, hs⟩ := hbe e h
      exact ⟨d, List.mem_append.mpr (Or.inr hd), hs⟩
  · rcases List.mem_append.mp hx with h | h
    · obtain ⟨d, hd, hs⟩ := hax x h
      exact ⟨d, List.mem_append.mpr (Or.inl hd), hs⟩
    · obtain ⟨d, hd, hs⟩ := hbx x h
      exact ⟨d, List.mem_append.mpr (Or.inr hd), hs⟩
  · rcases List.mem_append.mp hr with h | h
    · obtain ⟨d, hd, hs⟩ := har r h
      exact ⟨d, List.mem_append.mpr (Or.inl hd), hs⟩
    · obtain ⟨d, hd, hs⟩ := hbr r h
      exact ⟨d, List.mem_append.mpr (Or.inr hd), hs⟩

/-- Linked sources hold for every pipeline run from the empty knowledge. -/
theorem sourcesLinked_run (files : List SrcFile) :
    sourcesLinked (processAllDocuments files emptyKnowledge) := by
  induction files with
  | nil =>
    exact ⟨fun e h => absurd h (by simp [processAllDocuments, emptyKnowledge]),
      fun x h => absurd h (by simp [processAllDocuments, emptyKnowledge]),
      fun r h => absurd h (by simp [processAllDocuments, emptyKnowledge])⟩
  | cons f fs ih =>
    have hstep : processAllDocuments (f :: fs) emptyKnowledge =
        knowledgeAppend (deltaOf f) (processAllDocuments fs emptyKnowledge) := by
      show processAllDocuments fs (processOne emptyKnowledge f) = _
      rw [processAll_eq fs (processOne emptyKnowledge f), processOne_eq,
        knowledgeAppend_empty_left]
    rw [hstep]
    exact sourcesLinked_append _ _ (sourcesLinked_delta f) ih

/-- C9: after a run, every Endpoint, Example and Rule carries a `source`
equal to the filename of some Document in the knowledge base. -/
theorem spec_C9_referential_integrity (files : List SrcFile) :
    (∀ e ∈ (processAllDocuments files emptyKnowledge).endpoints,
      ∃ d ∈ (processAllDocuments files emptyKnowledge).documents, e.source = d.filename) ∧
    (∀ x ∈ (processAllDocuments files emptyKnowledge).examples,
      ∃ d ∈ (processAllDocuments files emptyKnowledge).documents, x.source = d.filename) ∧
    (∀ r ∈ (processAllDocuments files emptyKnowledge).rules,
      ∃ d ∈ (processAllDocuments files emptyKnowledge).documents, r.source = d.filename) :=
  sourcesLinked_run files

/-- Witness: the C9 theorem applied at the concrete one-file run `[fileC9]`
and the endpoint record it produces. -/
theorem spec_C9_referential_integrity_witness :
    recC4 "a.docx" ∈ (processAllDocuments [fileC9] emptyKnowledge).endpoints ∧
    ∃ d ∈ (processAllDocuments [fileC9] emptyKnowledge).documents,
      (recC4 "a.docx").source = d.filename :=
  ⟨by decide, (spec_C9_referential_integrity [fileC9]).1 (recC4 "a.docx") (by decide)⟩
